import Mathlib

/-
Verification of the page-loader pipeline (src/src/page-loader.js, the draft
exporting `export default function downloadPage`).  The JavaScript source is
shallowly embedded: pure string/URL manipulation becomes Lean functions, the
promise chain of `downloadPage` becomes an explicit run function threading a
file-system state and an event trace, and the external collaborators (the
WHATWG `URL` class, axios, cheerio, the file system) are modelled by explicit
total functions or by parameters of the run.
-/

namespace PageLoader

/-! ## Character-list string helpers -/

/-- Drop trailing occurrences of a character (models the regex replace of a
trailing `-+$` group). -/
def dropTrailing (c : Char) (l : List Char) : List Char :=
  (l.reverse.dropWhile (fun d => d == c)).reverse

/-- Replace each occurrence of one character by another. -/
def replaceChar (a b : Char) (s : String) : String :=
  ⟨s.data.map (fun c => if c == a then b else c)⟩

/-- Split a list at the first occurrence of a pattern, returning the part
before and the part after the pattern. -/
def findSplit (pat : List Char) : List Char → Option (List Char × List Char)
  | [] => if pat.isEmpty then some ([], []) else none
  | c :: cs =>
    if pat.isPrefixOf (c :: cs) then some ([], (c :: cs).drop pat.length)
    else
      match findSplit pat cs with
      | some (pre, post) => some (c :: pre, post)
      | none => none

/-- JavaScript `String.prototype.replace` with a plain-string pattern replaces
only the first occurrence. -/
def replaceFirst (s pat rep : String) : String :=
  match findSplit pat.data s.data with
  | some (pre, post) => (⟨pre⟩ : String) ++ rep ++ (⟨post⟩ : String)
  | none => s

/-- Bool test that a string ends with a given suffix. -/
def strEndsWith (s suf : String) : Bool :=
  suf.data.isSuffixOf s.data

/-- Bool infix test on character lists. -/
def listInfix (pat : List Char) : List Char → Bool
  | [] => pat.isEmpty
  | c :: cs => pat.isPrefixOf (c :: cs) || listInfix pat cs

/-- Bool test that a string contains a given substring. -/
def strContains (s sub : String) : Bool :=
  listInfix sub.data s.data

/-! ## Model of the WHATWG `URL` class

The source uses Node's built-in `new URL(input)` and `new URL(input, base)`.
That library is external to the repository, so it is modelled here for the URL
shapes the program exercises: absolute `http(s)://host/path?query` URLs,
non-special scheme URLs (empty hostname), protocol-relative, path-absolute,
query/fragment-only and bare relative references.  As in the WHATWG standard,
hosts are lowercased, a space in a path is percent-encoded (parsing a relative
reference containing spaces succeeds), and parsing fails for a special scheme
with an empty or invalid host. -/

structure URL where
  scheme : String
  host : String
  path : String
  query : String
deriving Repr, DecidableEq

def isSchemeChar (c : Char) : Bool :=
  c.isAlpha || c.isDigit || c == '+' || c == '-' || c == '.'

/-- Accumulating scanner for a leading `scheme:`; returns the scheme and the
rest after the colon. -/
def takeSchemeAux : List Char → List Char → Option (List Char × List Char)
  | _, [] => none
  | acc, d :: ds =>
    if d == ':' then some (acc.reverse, ds)
    else if isSchemeChar d then takeSchemeAux (d :: acc) ds
    else none

/-- Split a leading URL scheme from a character list. -/
def takeScheme : List Char → Option (List Char × List Char)
  | [] => none
  | c :: cs => if c.isAlpha then takeSchemeAux [c] cs else none

def isHostChar (c : Char) : Bool :=
  c.isAlphanum || c == '.' || c == '-'

def validHost (l : List Char) : Bool :=
  !l.isEmpty && l.all isHostChar

/-- Split the authority part (up to the first `/`, `?` or `#`). -/
def splitAuthority : List Char → List Char × List Char
  | [] => ([], [])
  | c :: cs =>
    if c == '/' || c == '?' || c == '#' then ([], c :: cs)
    else
      let (a, r) := splitAuthority cs
      (c :: a, r)

/-- Split a list at the first occurrence of a single character; returns the
part before it and, when found, the part after it. -/
def splitAtChar (ch : Char) : List Char → List Char × Option (List Char)
  | [] => ([], none)
  | c :: cs =>
    if c == ch then ([], some cs)
    else
      let (a, r) := splitAtChar ch cs
      (c :: a, r)

/-- Parse a `host[:port]` authority; the hostname is lowercased, the port (when
present) must be numeric.  Fails for an empty or invalid host. -/
def parseHostPort (l : List Char) : Option String :=
  let (h, port?) := splitAtChar ':' l
  let host := h.map Char.toLower
  if validHost host then
    match port? with
    | none => some ⟨host⟩
    | some p => if p.all Char.isDigit then some ⟨host⟩ else none
  else none

/-- Percent-encode a path character (the model covers the space character,
which is the case the program's inputs can exercise). -/
def encodeChar (c : Char) : List Char :=
  if c == ' ' then ['%', '2', '0'] else [c]

def encodePath (l : List Char) : List Char :=
  (l.map encodeChar).flatten

/-- Split a path-and-after part into an encoded path and a search string; the
fragment is dropped. -/
def splitPathQuery (l : List Char) : String × String :=
  let nofrag := (splitAtChar '#' l).1
  let (p, q?) := splitAtChar '?' nofrag
  (⟨encodePath p⟩, match q? with | none => "" | some q => "?" ++ (⟨q⟩ : String))

/-- Model of `new URL(s)` on an absolute URL string. -/
def URL.parse (s : String) : Option URL :=
  match takeScheme s.data with
  | none => none
  | some (sch, rest) =>
    let scheme : String := ⟨sch.map Char.toLower⟩
    if scheme == "http" || scheme == "https" then
      match rest with
      | '/' :: '/' :: r =>
        let (auth, pr) := splitAuthority r
        match parseHostPort auth with
        | none => none
        | some host =>
          let (path, query) := splitPathQuery pr
          some { scheme := scheme, host := host,
                 path := if path == "" then "/" else path, query := query }
      | _ => none
    else
      let (path, query) := splitPathQuery rest
      some { scheme := scheme, host := "", path := path, query := query }

/-- Directory part of a path, including the trailing slash. -/
def dirPart (l : List Char) : List Char :=
  (l.reverse.dropWhile (fun c => !(c == '/'))).reverse

/-- Model of `new URL(input, base)`: resolution of a reference against a base
URL. -/
def URL.resolve (base : URL) (input : String) : Option URL :=
  match takeScheme input.data with
  | some _ => URL.parse input
  | none =>
    match input.data with
    | '/' :: '/' :: r =>
      let (auth, pr) := splitAuthority r
      match parseHostPort auth with
      | none => none
      | some host =>
        let (path, query) := splitPathQuery pr
        some { scheme := base.scheme, host := host,
               path := if path == "" then "/" else path, query := query }
    | '/' :: r =>
      let (path, query) := splitPathQuery ('/' :: r)
      some { base with path := path, query := query }
    | '?' :: r => some { base with query := "?" ++ (⟨(splitAtChar '#' r).1⟩ : String) }
    | '#' :: _ => some base
    | [] => some base
    | l =>
      let (path, query) := splitPathQuery l
      some { base with path := (⟨dirPart base.path.data⟩ : String) ++ path, query := query }

/-- Model of `URL.prototype.toString` (fragments are never kept). -/
def URL.toString (u : URL) : String :=
  if u.host == "" && !(u.scheme == "http" || u.scheme == "https") then
    u.scheme ++ ":" ++ u.path ++ u.query
  else
    u.scheme ++ "://" ++ u.host ++ u.path ++ u.query

/-! ## The page-loader pure functions

These definitions translate `isLocalResource` (src/src/page-loader.js:30) and
`generateFileName` (src/src/page-loader.js:40) of the analysed draft.  A
JavaScript function that would throw a `TypeError` on an unparseable URL is
modelled as returning `none`. -/

/-- Translation of `isLocalResource`: resolve the candidate against the base
and compare hostnames; return `false` on any parse or resolution failure (the
`catch` branch). -/
def isLocalResource (baseUrl resourceUrl : String) : Bool :=
  match URL.parse baseUrl with
  | none => false
  | some base =>
    match base.resolve resourceUrl with
    | none => false
    | some resource => resource.host == base.host

/-- The regex match `/\.([a-z0-9]+)$/i` against a pathname: the final run of
ASCII alphanumeric characters when it is nonempty and preceded by a literal
dot. -/
def extensionMatch (path : String) : Option String :=
  let rev := path.data.reverse
  let ext := rev.takeWhile (fun c => c.isAlphanum)
  match rev.drop ext.length with
  | '.' :: _ => if ext.isEmpty then none else some ⟨ext.reverse⟩
  | _ => none

/-- Translation of `generateFileName(urlString, isResource)`: hostname with
dots hyphenated, pathname with slashes hyphenated and trailing hyphens
stripped; pages get a `.html` suffix unless already present; resources get the
extension matched from the pathname appended (or `.html` when there is
none). -/
def generateFileName (urlString : String) (asResource : Bool) : Option String :=
  match URL.parse urlString with
  | none => none
  | some url =>
    let name := replaceChar '.' '-' url.host
      ++ (⟨dropTrailing '-' (url.path.data.map (fun c => if c == '/' then '-' else c))⟩ : String)
    if !asResource then
      some (if strEndsWith name ".html" then name else name ++ ".html")
    else
      match extensionMatch url.path with
      | some ext => some (name ++ "." ++ ext)
      | none => some (name ++ ".html")

/-- Model of `path.join` for the shapes the program builds (a directory with
no trailing slash joined with a relative member). -/
def pathJoin (a b : String) : String := a ++ "/" ++ b

/-- Model of `path.basename`. -/
def pathBasename (p : String) : String :=
  ⟨(p.data.reverse.takeWhile (fun c => !(c == '/'))).reverse⟩

/-! ## The markup tree model

Cheerio is the external parse/query/serialize capability; the parsed page is
modelled as a list of elements in document order, each with a tag name and an
attribute list.  The selectors the scanner uses are flat (no nesting), so a
flat list is a faithful carrier for them. -/

structure Element where
  tag : String
  attrs : List (String × String)
deriving Repr, DecidableEq

/-- First binding of an attribute name in an attribute list. -/
def findAttr (a : String) : List (String × String) → Option (String × String)
  | [] => none
  | p :: t => if p.1 == a then some p else findAttr a t

/-- Model of cheerio `$(el).attr(name)`. -/
def getAttr (e : Element) (a : String) : Option String :=
  (findAttr a e.attrs).map (fun p => p.2)

/-- Model of cheerio `$(el).attr(name, value)`: overwrite when present,
append otherwise. -/
def setAttr (e : Element) (a v : String) : Element :=
  if (findAttr a e.attrs).isSome then
    { e with attrs := e.attrs.map (fun p => if p.1 == a then (p.1, v) else p) }
  else
    { e with attrs := e.attrs ++ [(a, v)] }

/-- The four selector categories of `tagsToProcess`
(src/src/page-loader.js:96). -/
inductive TagKind
  | images
  | stylesheets
  | scripts
  | htmlLinks
deriving Repr, DecidableEq

/-- The attribute each category reads and rewrites. -/
def tagAttr : TagKind → String
  | .images => "src"
  | .stylesheets => "href"
  | .scripts => "src"
  | .htmlLinks => "href"

/-- The tag name each category's selector requires. -/
def kindTag : TagKind → String
  | .images => "img"
  | .stylesheets => "link"
  | .scripts => "script"
  | .htmlLinks => "a"

/-- Whether an element matches a category's selector: `img[src]`,
`link[href][rel="stylesheet"]`, `script[src]`,
`a[href$=".html"], a[href*=".html?"]`. -/
def matchesKind (e : Element) : TagKind → Bool
  | .images => e.tag == "img" && (getAttr e "src").isSome
  | .stylesheets => e.tag == "link" && (getAttr e "href").isSome
      && (getAttr e "rel" == some "stylesheet")
  | .scripts => e.tag == "script" && (getAttr e "src").isSome
  | .htmlLinks => e.tag == "a" &&
      (match getAttr e "href" with
       | some h => strEndsWith h ".html" || strContains h ".html?"
       | none => false)

def tagsToProcess : List TagKind :=
  [.images, .stylesheets, .scripts, .htmlLinks]

/-- A scanned resource reference: the index of its element in the document,
the attribute carrying the reference and the originally authored URL. -/
structure ResourceRef where
  idx : Nat
  attr : String
  url : String
deriving Repr, DecidableEq

/-- References collected for one selector category, in document order: the
attribute value must be truthy (nonempty) and pass the origin filter. -/
def scanKind (doc : List Element) (baseUrl : String) (k : TagKind) : List ResourceRef :=
  doc.enum.filterMap (fun p =>
    if matchesKind p.2 k then
      match getAttr p.2 (tagAttr k) with
      | some u =>
        if u != "" && isLocalResource baseUrl u then
          some ⟨p.1, tagAttr k, u⟩
        else none
      | none => none
    else none)

/-- All scanned references; categories are processed in the fixed order of
`tagsToProcess`. -/
def scanResources (doc : List Element) (baseUrl : String) : List ResourceRef :=
  (tagsToProcess.map (scanKind doc baseUrl)).flatten

/-! ## Network and fetch model

axios is the external HTTP capability; a network is a total function from an
absolute URL string to either a transport error or a response.  The analysed
draft fetches each resource with `validateStatus: status === 200` and the main
page with axios's default validation (2xx accepted). -/

inductive NetError
  | enotfound
  | econnrefused
  | etimedout
  | invalidUrl
deriving Repr, DecidableEq

/-- The Node/axios `error.code` string of a transport error. -/
def errCode : NetError → String
  | .enotfound => "ENOTFOUND"
  | .econnrefused => "ECONNREFUSED"
  | .etimedout => "ETIMEDOUT"
  | .invalidUrl => "ERR_INVALID_URL"

/-- The `error.message` of a transport error (used only by the fall-through
branch of the classifier). -/
def netMessage : NetError → String
  | .enotfound => "getaddrinfo ENOTFOUND"
  | .econnrefused => "connect ECONNREFUSED"
  | .etimedout => "timeout exceeded"
  | .invalidUrl => "Invalid URL"

structure HttpResponse where
  status : Nat
  body : String
deriving Repr, DecidableEq

def Net : Type := String → Except NetError HttpResponse

/-- The absolute URL string `new URL(resourceUrl, baseUrl).toString()`
computed inside `downloadResource`. -/
def absoluteUrlOf (baseUrl resourceUrl : String) : Option String :=
  match URL.parse baseUrl with
  | none => none
  | some base => (base.resolve resourceUrl).map URL.toString

/-- The per-resource `DownloadOutcome` of `downloadResource`
(src/src/page-loader.js:63): `some filename` exactly when the GET returned
HTTP 200 and the body was written; any transport error, non-200 status or
resolution failure yields `none` (the `success: false` branch). -/
def resourceOutcome (net : Net) (baseUrl resourceUrl : String) : Option String :=
  match absoluteUrlOf baseUrl resourceUrl with
  | none => none
  | some a =>
    match net a with
    | .error _ => none
    | .ok resp => if resp.status == 200 then generateFileName a true else none

/-- The local file name `generateFileName(absoluteUrl, true)` a reference
would be stored under, independent of the download outcome. -/
def localFileNameOf (baseUrl resourceUrl : String) : Option String :=
  (absoluteUrlOf baseUrl resourceUrl).bind (fun a => generateFileName a true)

/-- A resource of one run: either the main page added as a pseudo-resource
(when the page URL ends in `.html`) or a scanned reference. -/
inductive Resource
  | mainPage
  | ref (r : ResourceRef)
deriving Repr, DecidableEq

/-- The URL `downloadResource` is called with for a resource. -/
def resourceUrlOf (baseUrl : String) : Resource → String
  | .mainPage => baseUrl
  | .ref r => r.url

/-- The resource list of `processHtmlWithProgress`: the optional main-page
pseudo-resource followed by the scanned references. -/
def collectResources (doc : List Element) (baseUrl : String) : List Resource :=
  (if strEndsWith baseUrl ".html" then [Resource.mainPage] else [])
    ++ (scanResources doc baseUrl).map Resource.ref

/-- The file (path and content) a resource's task writes into the resources
directory, present exactly when its download outcome is success. -/
def resourceWriteOf (net : Net) (baseUrl resourcesDir : String) (r : Resource) :
    Option (String × String) :=
  match absoluteUrlOf baseUrl (resourceUrlOf baseUrl r) with
  | none => none
  | some a =>
    match net a with
    | .error _ => none
    | .ok resp =>
      if resp.status == 200 then
        (generateFileName a true).map (fun fn => (pathJoin resourcesDir fn, resp.body))
      else none

/-! ## Rewriting the tree -/

/-- Replace the element at one index of the document (the model of mutating a
cheerio node handle in place). -/
def modifyIdx : List Element → Nat → (Element → Element) → List Element
  | [], _, _ => []
  | e :: es, 0, f => f e :: es
  | e :: es, n + 1, f => e :: modifyIdx es n f

/-- One resource task's effect on the tree: on success set the reference's
attribute to `resourcesDirName/fileName`, on failure leave the tree alone
(src/src/page-loader.js:140). -/
def rewriteStep (net : Net) (baseUrl dirName : String) (d : List Element)
    (r : ResourceRef) : List Element :=
  match resourceOutcome net baseUrl r.url with
  | some fn => modifyIdx d r.idx (fun e => setAttr e r.attr (pathJoin dirName fn))
  | none => d

/-- The final tree produced by `processHtmlWithProgress`: every scanned
reference's task applied to the loaded tree.  Fetches run concurrently in the
source; since each task touches only its own element and the rewrite value
does not depend on completion order, the fold over document order computes the
same tree. -/
def processHtml (net : Net) (baseUrl dirName : String) (doc : List Element) :
    List Element :=
  (scanResources doc baseUrl).foldl (rewriteStep net baseUrl dirName) doc

/-- Attribute of the element at an index of a document. -/
def getAttrAt (d : List Element) (i : Nat) (a : String) : Option String :=
  match d.get? i with
  | some e => getAttr e a
  | none => none

/-- Canonical serialization of the tree (the model of `$.html()` followed by
the cosmetic prettier pass, which by contract alters neither structure nor
attribute values). -/
def serializeElement (e : Element) : String :=
  "<" ++ e.tag ++ String.join (e.attrs.map (fun p => " " ++ p.1 ++ "=\"" ++ p.2 ++ "\"")) ++ ">"

def serialize (doc : List Element) : String :=
  String.join (doc.map serializeElement)

/-! ## The orchestrator `downloadPage`

The promise chain of `export default function downloadPage(url, outputDir)`
(src/src/page-loader.js:165) is embedded as a run function.  The file system
is a state of directories and files; observable I/O steps are recorded in an
event trace (the concurrent resource fetches are linearized in document order;
every property proved below is insensitive to their relative order). -/

inductive Event
  | accessCheck (dir : String)
  | httpGet (url : String)
  | mkdirRec (dir : String)
  | fileWrite (path : String)
deriving Repr, DecidableEq

/-- The JavaScript value a settled promise carries: the drafts at issue either
resolve a plain path string or (per the spec) a `{htmlPath, resourcesDirectory}`
record. -/
inductive JsValue
  | str (s : String)
  | obj (htmlPath resourcesDirectory : String)
deriving Repr, DecidableEq

/-- Whether a resolved value is the two-field record shape. -/
def JsValue.isPair : JsValue → Bool
  | .str _ => false
  | .obj _ _ => true

/-- Settled state of the returned promise: resolved with a value, or rejected
with a `PageLoaderError` message and code. -/
inductive RunResult
  | resolved (v : JsValue)
  | rejected (message : String) (code : String)
deriving Repr, DecidableEq

def RunResult.isResolved : RunResult → Bool
  | .resolved _ => true
  | .rejected _ _ => false

/-- The error shapes that can reach the final `catch` of `downloadPage`. -/
inductive OpError
  | fsAccess (code message : String)
  | network (e : NetError)
  | httpStatus (status : Nat)
deriving Repr, DecidableEq

/-- The classifier of the final `catch` (src/src/page-loader.js:196): a
message chosen by `error.code === 'ENOTFOUND'`, then `error.code === 'EACCES'`,
then the presence of `error.response`, else the raw message; paired with the
code stored on the `PageLoaderError`.  axios attaches `ERR_BAD_REQUEST` to a
rejection caused by `validateStatus`, which matches neither of the two code
tests, so a bad status always reaches the `error.response` branch. -/
def rejectionOf (url outputDir : String) : OpError → String × String
  | .fsAccess code msg =>
    if code == "ENOTFOUND" then ("Network error: could not resolve host for " ++ url, code)
    else if code == "EACCES" then ("Output directory is not writable: " ++ outputDir, code)
    else (msg, code)
  | .network e =>
    if errCode e == "ENOTFOUND" then
      ("Network error: could not resolve host for " ++ url, errCode e)
    else (netMessage e, errCode e)
  | .httpStatus s => ("Request failed with status " ++ toString s, "ERR_BAD_REQUEST")

structure FsState where
  dirs : List String
  files : List (String × String)
deriving Repr, DecidableEq

structure RunOutput where
  result : RunResult
  events : List Event
  fs : FsState
deriving Repr, DecidableEq

/-- The resources directory path:
`path.join(outputDir, pageName.replace('.html', '') + '_files')`. -/
def resourcesDirOf (outputDir pageName : String) : String :=
  pathJoin outputDir (replaceFirst pageName ".html" "" ++ "_files")

/-- Fetch events issued by the resource tasks (a reference whose URL fails to
resolve throws synchronously inside its task and issues no request). -/
def resourceFetchEvents (baseUrl : String) (rs : List Resource) : List Event :=
  rs.filterMap (fun r => (absoluteUrlOf baseUrl (resourceUrlOf baseUrl r)).map Event.httpGet)

/-- The run of `downloadPage(url, outputDir)`.

* `parseHtml` is the cheerio load capability turning the page body into a tree;
* `net` is the HTTP capability;
* `dirAccess` is the result of `fs.access(outputDir, W_OK)`: `none` when the
  directory is writable, `some (code, message)` for its rejection;
* `fs0` is the initial file-system state.

The chain: access check → GET of the page with default status validation →
derive page name, resources directory and HTML path → recursive `mkdir` →
scan, fetch and rewrite → write the serialized page → resolve with the HTML
file path. -/
def downloadPageRun (parseHtml : String → List Element) (net : Net)
    (dirAccess : Option (String × String)) (fs0 : FsState)
    (url outputDir : String) : RunOutput :=
  match dirAccess with
  | some (code, msg) =>
    let (m, c) := rejectionOf url outputDir (.fsAccess code msg)
    ⟨.rejected m c, [.accessCheck outputDir], fs0⟩
  | none =>
    match net url with
    | .error e =>
      let (m, c) := rejectionOf url outputDir (.network e)
      ⟨.rejected m c, [.accessCheck outputDir, .httpGet url], fs0⟩
    | .ok resp =>
      if 200 ≤ resp.status ∧ resp.status < 300 then
        match generateFileName url false with
        | none =>
          ⟨.rejected "Invalid URL" "ERR_INVALID_URL",
            [.accessCheck outputDir, .httpGet url], fs0⟩
        | some pageName =>
          let resourcesDir := resourcesDirOf outputDir pageName
          let htmlFilePath := pathJoin outputDir pageName
          let doc := parseHtml resp.body
          let rs := collectResources doc url
          let finalDoc := processHtml net url (pathBasename resourcesDir) doc
          let dirs1 := if resourcesDir ∈ fs0.dirs then fs0.dirs else fs0.dirs ++ [resourcesDir]
          let files1 := fs0.files ++ rs.filterMap (resourceWriteOf net url resourcesDir)
          ⟨.resolved (.str htmlFilePath),
            [.accessCheck outputDir, .httpGet url, .mkdirRec resourcesDir]
              ++ resourceFetchEvents url rs ++ [.fileWrite htmlFilePath],
            ⟨dirs1, files1 ++ [(htmlFilePath, serialize finalDoc)]⟩⟩
      else
        let (m, c) := rejectionOf url outputDir (.httpStatus resp.status)
        ⟨.rejected m c, [.accessCheck outputDir, .httpGet url], fs0⟩

/-! ## Derived notions used by the statements -/

/-- The pure call-trace semantics of `generateFileName`: a sequence of calls
and their results. -/
def runCalls (cs : List (String × Bool)) : List (Option String) :=
  cs.map (fun c => generateFileName c.1 c.2)

/-- Resolution of a candidate reference against a base URL string, as
performed inside `isLocalResource`. -/
def resolveCandidate (baseUrl candidate : String) : Option URL :=
  match URL.parse baseUrl with
  | none => none
  | some base => base.resolve candidate

/-- Whether an authored URL literally coincides with the local path it would
be rewritten to (the degenerate case excluded from the rewrite-iff-success
equivalence). -/
def localCollision (baseUrl dirName u : String) : Bool :=
  match localFileNameOf baseUrl u with
  | some fn => pathJoin dirName fn == u
  | none => false

/-- Number of download tasks the run would start whose absolute URL is the
given one (`processHtmlWithProgress` maps every collected resource to its own
task). -/
def downloadTasksFor (doc : List Element) (baseUrl absUrl : String) : Nat :=
  ((collectResources doc baseUrl).filter
    (fun r => absoluteUrlOf baseUrl (resourceUrlOf baseUrl r) == some absUrl)).length

/-! ## Concrete configurations used by the witnesses -/

def c1net : Net := fun u =>
  if u == "https://a.com/p" then Except.ok ⟨200, "page"⟩
  else if u == "https://a.com/ok.png" then Except.ok ⟨200, "okdata"⟩
  else Except.error NetError.enotfound

def c1doc : List Element := [⟨"img", [("src", "/ok.png")]⟩]

def c2net : Net := fun u =>
  if u == "https://a.com/p" then Except.ok ⟨200, "page"⟩
  else if u == "https://a.com/ok.png" then Except.ok ⟨200, "okdata"⟩
  else if u == "https://a.com/miss.png" then Except.ok ⟨404, "not found"⟩
  else Except.error NetError.enotfound

def c2doc : List Element :=
  [⟨"img", [("src", "/ok.png")]⟩, ⟨"img", [("src", "/miss.png")]⟩]

def c4net : Net := fun _ => Except.ok ⟨201, ""⟩

def c4net404 : Net := fun _ => Except.ok ⟨404, "not found"⟩

def c5net : Net := fun u =>
  if u == "https://a.com/p" then Except.ok ⟨200, "page"⟩
  else Except.error NetError.enotfound

def c8doc : List Element :=
  [⟨"img", [("src", "/a.png")]⟩, ⟨"img", [("src", "/a.png")]⟩]

def c10net : Net := fun _ => Except.ok ⟨200, "page"⟩

/-! ## Lemmas about the tree rewrite -/

theorem modifyIdx_get_eq (l : List Element) (i : Nat) (f : Element → Element) :
    (modifyIdx l i f).get? i = (l.get? i).map f := by
  induction l generalizing i with
  | nil => cases i <;> simp [modifyIdx]
  | cons e es ih =>
    cases i with
    | zero => simp [modifyIdx]
    | succ n => simpa [modifyIdx] using ih n

theorem modifyIdx_get_ne (l : List Element) (i j : Nat) (f : Element → Element)
    (h : j ≠ i) : (modifyIdx l i f).get? j = l.get? j := by
  induction l generalizing i j with
  | nil => simp [modifyIdx]
  | cons e es ih =>
    cases i with
    | zero =>
      cases j with
      | zero => exact absurd rfl h
      | succ m => simp [modifyIdx]
    | succ n =>
      cases j with
      | zero => simp [modifyIdx]
      | succ m =>
        simpa [modifyIdx] using ih n m (fun hh => h (congrArg Nat.succ hh))

theorem findAttr_map_set (l : List (String × String)) (a v : String) :
    findAttr a (l.map (fun p => if p.1 == a then (p.1, v) else p))
      = (findAttr a l).map (fun p => (p.1, v)) := by
  induction l with
  | nil => rfl
  | cons p t ih =>
    cases hp : (p.1 == a) with
    | true => simp [findAttr, hp]
    | false =>
      simp only [List.map_cons, findAttr, hp, Bool.false_eq_true, if_false]
      exact ih

theorem findAttr_append_none (a : String) (l₁ l₂ : List (String × String))
    (h : findAttr a l₁ = none) : findAttr a (l₁ ++ l₂) = findAttr a l₂ := by
  induction l₁ with
  | nil => rfl
  | cons x t ih =>
    cases hx : (x.1 == a) with
    | true => simp [findAttr, hx] at h
    | false =>
      simp only [findAttr, hx] at h
      simp only [List.cons_append, findAttr, hx]
      simp only [Bool.false_eq_true, if_false] at h ⊢
      exact ih h

theorem getAttr_setAttr_self (e : Element) (a v : String) :
    getAttr (setAttr e a v) a = some v := by
  unfold getAttr setAttr
  cases hf : findAttr a e.attrs with
  | some q =>
    simp only [hf, Option.isSome_some, if_true]
    rw [findAttr_map_set, hf]
    rfl
  | none =>
    simp only [hf, Option.isSome_none, Bool.false_eq_true, if_false]
    rw [findAttr_append_none _ _ _ hf]
    simp [findAttr]

theorem rewriteStep_get_ne (net : Net) (b dn : String) (d : List Element)
    (r' : ResourceRef) (j : Nat) (h : j ≠ r'.idx) :
    (rewriteStep net b dn d r').get? j = d.get? j := by
  unfold rewriteStep
  cases resourceOutcome net b r'.url with
  | none => rfl
  | some fn => exact modifyIdx_get_ne _ _ _ _ h

theorem fold_preserve (net : Net) (b dn : String) (r : ResourceRef)
    (hout : resourceOutcome net b r.url = none) :
    ∀ (refs : List ResourceRef) (d : List Element),
      (∀ r' ∈ refs, r'.idx = r.idx → r' = r) →
      (refs.foldl (rewriteStep net b dn) d).get? r.idx = d.get? r.idx := by
  intro refs
  induction refs with
  | nil => intro d _; rfl
  | cons a l ih =>
    intro d huniq
    rw [List.foldl_cons,
      ih (rewriteStep net b dn d a)
        (fun r' hr' h' => huniq r' (List.mem_cons_of_mem a hr') h')]
    by_cases ha : a.idx = r.idx
    · have heq : a = r := huniq a (List.mem_cons_self a l) ha
      rw [heq]
      unfold rewriteStep
      rw [hout]
    · exact rewriteStep_get_ne net b dn d a r.idx (fun hh => ha hh.symm)

theorem fold_stable (net : Net) (b dn : String) (r : ResourceRef) (fn : String)
    (hout : resourceOutcome net b r.url = some fn) :
    ∀ (refs : List ResourceRef) (d : List Element),
      (∀ r' ∈ refs, r'.idx = r.idx → r' = r) →
      getAttrAt d r.idx r.attr = some (pathJoin dn fn) →
      getAttrAt (refs.foldl (rewriteStep net b dn) d) r.idx r.attr
        = some (pathJoin dn fn) := by
  intro refs
  induction refs with
  | nil => intro d _ h; exact h
  | cons a l ih =>
    intro d huniq hd
    rw [List.foldl_cons]
    apply ih _ (fun r' hr' h' => huniq r' (List.mem_cons_of_mem a hr') h')
    by_cases ha : a.idx = r.idx
    · have heq : a = r := huniq a (List.mem_cons_self a l) ha
      rw [heq]
      unfold getAttrAt at hd ⊢
      unfold rewriteStep
      rw [hout, modifyIdx_get_eq]
      cases hge : d.get? r.idx with
      | none => rw [hge] at hd; exact Option.noConfusion hd
      | some e => exact getAttr_setAttr_self e r.attr (pathJoin dn fn)
    · unfold getAttrAt at hd ⊢
      rw [rewriteStep_get_ne net b dn d a r.idx (fun hh => ha hh.symm)]
      exact hd

theorem fold_hit (net : Net) (b dn : String) (r : ResourceRef) (fn : String)
    (hout : resourceOutcome net b r.url = some fn) :
    ∀ (refs : List ResourceRef) (d : List Element),
      (∀ r' ∈ refs, r'.idx = r.idx → r' = r) →
      r ∈ refs → (d.get? r.idx).isSome →
      getAttrAt (refs.foldl (rewriteStep net b dn) d) r.idx r.attr
        = some (pathJoin dn fn) := by
  intro refs
  induction refs with
  | nil => intro d _ hmem _; cases hmem
  | cons a l ih =>
    intro d huniq hmem hsome
    rw [List.foldl_cons]
    by_cases ha : a.idx = r.idx
    · have heq : a = r := huniq a (List.mem_cons_self a l) ha
      rw [heq]
      apply fold_stable net b dn r fn hout _ _
        (fun r' hr' h' => huniq r' (List.mem_cons_of_mem a hr') h')
      unfold getAttrAt rewriteStep
      rw [hout, modifyIdx_get_eq]
      cases hge : d.get? r.idx with
      | none => rw [hge] at hsome; exact Bool.noConfusion hsome
      | some e => exact getAttr_setAttr_self e r.attr (pathJoin dn fn)
    · have hmem' : r ∈ l := by
        rcases List.mem_cons.mp hmem with h | h
        · exact absurd (h ▸ rfl) ha
        · exact h
      apply ih _ (fun r' hr' h' => huniq r' (List.mem_cons_of_mem a hr') h') hmem'
      rw [rewriteStep_get_ne net b dn d a r.idx (fun hh => ha hh.symm)]
      exact hsome

/-! ## Lemmas about scanning -/

theorem mem_scanKind {doc : List Element} {b : String} {k : TagKind} {r : ResourceRef}
    (h : r ∈ scanKind doc b k) :
    ∃ e, doc.get? r.idx = some e ∧ matchesKind e k = true ∧ r.attr = tagAttr k
      ∧ getAttr e (tagAttr k) = some r.url
      ∧ (r.url != "") = true ∧ isLocalResource b r.url = true := by
  simp only [scanKind, List.mem_filterMap] at h
  obtain ⟨⟨i, e⟩, hmem, hf⟩ := h
  rw [List.mem_enum_iff_get?] at hmem
  dsimp only at hmem hf
  split at hf
  case isTrue hm =>
    split at hf
    case h_1 u hg =>
      split at hf
      case isTrue hc =>
        obtain rfl := Option.some.inj hf
        rw [Bool.and_eq_true] at hc
        exact ⟨e, hmem, hm, rfl, hg, hc.1, hc.2⟩
      case isFalse hc => exact Option.noConfusion hf
    case h_2 hg => exact Option.noConfusion hf
  case isFalse hm => exact Option.noConfusion hf

theorem matchesKind_tag {e : Element} {k : TagKind} (h : matchesKind e k = true) :
    e.tag = kindTag k := by
  cases k <;>
    simp only [matchesKind, Bool.and_eq_true, beq_iff_eq] at h <;>
    first | exact h.1 | exact h.1.1

theorem kindTag_inj {k1 k2 : TagKind} (h : kindTag k1 = kindTag k2) : k1 = k2 := by
  cases k1 <;> cases k2 <;> first | rfl | exact absurd h (by decide)

theorem mem_scanResources {doc : List Element} {b : String} {r : ResourceRef}
    (h : r ∈ scanResources doc b) : ∃ k, k ∈ tagsToProcess ∧ r ∈ scanKind doc b k := by
  simp only [scanResources, List.mem_flatten, List.mem_map] at h
  obtain ⟨_, ⟨k, hk, rfl⟩, hr⟩ := h
  exact ⟨k, hk, hr⟩

/-- Two scanned references for the same element index are the same reference:
an element's tag admits at most one selector category, and the reference's
attribute and URL are functions of the element and its category. -/
theorem scan_unique {doc : List Element} {b : String} {r1 r2 : ResourceRef}
    (h1 : r1 ∈ scanResources doc b) (h2 : r2 ∈ scanResources doc b)
    (hidx : r1.idx = r2.idx) : r1 = r2 := by
  obtain ⟨k1, _, hr1⟩ := mem_scanResources h1
  obtain ⟨k2, _, hr2⟩ := mem_scanResources h2
  obtain ⟨e1, hg1, hm1, ha1, hga1, _, _⟩ := mem_scanKind hr1
  obtain ⟨e2, hg2, hm2, ha2, hga2, _, _⟩ := mem_scanKind hr2
  rw [hidx, hg2] at hg1
  obtain rfl := Option.some.inj hg1
  have hk : k1 = k2 := kindTag_inj ((matchesKind_tag hm1).symm.trans (matchesKind_tag hm2))
  subst hk
  rw [hga2] at hga1
  obtain hurl := Option.some.inj hga1
  cases r1
  cases r2
  simp_all

theorem resourceOutcome_localFileName {net : Net} {b u fn : String}
    (h : resourceOutcome net b u = some fn) : localFileNameOf b u = some fn := by
  unfold resourceOutcome at h
  unfold localFileNameOf
  split at h
  case h_1 => exact Option.noConfusion h
  case h_2 a ha =>
    rw [ha]
    split at h
    case h_1 => exact Option.noConfusion h
    case h_2 resp hn =>
      split at h
      case isTrue => exact h
      case isFalse => exact Option.noConfusion h

/-- The attribute of a scanned reference's element after processing: the local
path on success, the originally authored URL on failure. -/
theorem processHtml_attr (net : Net) (b dn : String) (doc : List Element)
    (r : ResourceRef) (hr : r ∈ scanResources doc b) :
    getAttrAt (processHtml net b dn doc) r.idx r.attr
      = match resourceOutcome net b r.url with
        | some fn => some (pathJoin dn fn)
        | none => some r.url := by
  have huniq : ∀ r' ∈ scanResources doc b, r'.idx = r.idx → r' = r :=
    fun r' h' hi => scan_unique h' hr hi
  have horig : getAttrAt doc r.idx r.attr = some r.url := by
    obtain ⟨k, _, hrk⟩ := mem_scanResources hr
    obtain ⟨e, hg, _, ha, hga, _, _⟩ := mem_scanKind hrk
    unfold getAttrAt
    rw [hg, ha]
    exact hga
  cases hout : resourceOutcome net b r.url with
  | none =>
    unfold processHtml
    unfold getAttrAt at horig ⊢
    rw [fold_preserve net b dn r hout (scanResources doc b) doc huniq]
    exact horig
  | some fn =>
    have hsome : (doc.get? r.idx).isSome = true := by
      unfold getAttrAt at horig
      cases hge : doc.get? r.idx with
      | none => rw [hge] at horig; exact Option.noConfusion horig
      | some e => rfl
    exact fold_hit net b dn r fn hout (scanResources doc b) doc huniq hr hsome

/-! ## Lemmas about the run -/

/-- A file written by a resource task comes from a successful outcome, and its
path is the resources directory joined with that outcome's file name. -/
theorem resourceWriteOf_some {net : Net} {b rd : String} {r : Resource} {p c : String}
    (h : resourceWriteOf net b rd r = some (p, c)) :
    ∃ fn, resourceOutcome net b (resourceUrlOf b r) = some fn ∧ p = pathJoin rd fn := by
  unfold resourceWriteOf at h
  split at h
  case h_1 => exact Option.noConfusion h
  case h_2 a ha =>
    split at h
    case h_1 => exact Option.noConfusion h
    case h_2 resp hn =>
      split at h
      case isTrue hs =>
        cases hg : generateFileName a true with
        | none => rw [hg] at h; exact Option.noConfusion h
        | some fn =>
          rw [hg] at h
          simp only [Option.map_some'] at h
          obtain h' := Option.some.inj h
          refine ⟨fn, ?_, ?_⟩
          · simp [resourceOutcome, ha, hn, hs, hg]
          · exact (congrArg Prod.fst h').symm
      case isFalse hs => exact Option.noConfusion h

/-- Normal form of a successful run: the page fetch returned a 2xx response
and the URL yields a page name; the run resolves with the HTML path, emits
the access-check, page-fetch, mkdir, resource-fetch and file-write events in
order, and extends the file system with the resource writes and the page. -/
theorem downloadPageRun_success (parseHtml : String → List Element) (net : Net)
    (fs0 : FsState) (url outputDir pageName : String) (resp : HttpResponse)
    (hnet : net url = Except.ok resp) (h200 : 200 ≤ resp.status ∧ resp.status < 300)
    (hpn : generateFileName url false = some pageName) :
    downloadPageRun parseHtml net none fs0 url outputDir =
      ⟨.resolved (.str (pathJoin outputDir pageName)),
        [.accessCheck outputDir, .httpGet url,
            .mkdirRec (resourcesDirOf outputDir pageName)]
          ++ resourceFetchEvents url (collectResources (parseHtml resp.body) url)
          ++ [.fileWrite (pathJoin outputDir pageName)],
        ⟨(if resourcesDirOf outputDir pageName ∈ fs0.dirs then fs0.dirs
            else fs0.dirs ++ [resourcesDirOf outputDir pageName]),
          (fs0.files ++ (collectResources (parseHtml resp.body) url).filterMap
              (resourceWriteOf net url (resourcesDirOf outputDir pageName)))
            ++ [(pathJoin outputDir pageName,
                serialize (processHtml net url
                  (pathBasename (resourcesDirOf outputDir pageName))
                  (parseHtml resp.body)))]⟩⟩ := by
  simp only [downloadPageRun, hnet, hpn]
  rw [if_pos h200]

/-! ## The claims -/

/-- C1: for every page and every scanned resource reference, the element's
markup attribute in the final tree equals the local path
(resources-directory-name/fileName) exactly when that resource's download
outcome is success, and for a failed outcome the attribute equals the
originally authored URL, unchanged.  The `if and only if` direction also
needs the authored URL not to coincide literally with the local path
(`localCollision = false`), which the source cannot distinguish. -/
theorem C1_attr_rewritten_iff_success (net : Net) (baseUrl dirName : String)
    (doc : List Element) (r : ResourceRef)
    (hr : r ∈ scanResources doc baseUrl)
    (hcol : localCollision baseUrl dirName r.url = false) :
    getAttrAt doc r.idx r.attr = some r.url
    ∧ (∀ fn, resourceOutcome net baseUrl r.url = some fn →
        getAttrAt (processHtml net baseUrl dirName doc) r.idx r.attr
          = some (pathJoin dirName fn))
    ∧ (resourceOutcome net baseUrl r.url = none →
        getAttrAt (processHtml net baseUrl dirName doc) r.idx r.attr = some r.url)
    ∧ (∀ fn, localFileNameOf baseUrl r.url = some fn →
        (getAttrAt (processHtml net baseUrl dirName doc) r.idx r.attr
            = some (pathJoin dirName fn)
          ↔ resourceOutcome net baseUrl r.url = some fn)) := by
  have hmain := processHtml_attr net baseUrl dirName doc r hr
  have horig : getAttrAt doc r.idx r.attr = some r.url := by
    obtain ⟨k, _, hrk⟩ := mem_scanResources hr
    obtain ⟨e, hg, _, ha, hga, _, _⟩ := mem_scanKind hrk
    unfold getAttrAt
    rw [hg, ha]
    exact hga
  refine ⟨horig, ?_, ?_, ?_⟩
  · intro fn hout
    rw [hout] at hmain
    exact hmain
  · intro hout
    rw [hout] at hmain
    exact hmain
  · intro fn hlf
    constructor
    · intro hattr
      cases hout : resourceOutcome net baseUrl r.url with
      | some fn' =>
        have hlf' := resourceOutcome_localFileName hout
        rw [hlf] at hlf'
        obtain rfl := Option.some.inj hlf'
        rfl
      | none =>
        rw [hout] at hmain
        rw [hmain] at hattr
        have hcoll : pathJoin dirName fn = r.url := (Option.some.inj hattr).symm
        have hcol' : (pathJoin dirName fn == r.url) = false := by
          unfold localCollision at hcol
          rw [hlf] at hcol
          exact hcol
        rw [hcoll] at hcol'
        simp at hcol'
    · intro hout
      rw [hout] at hmain
      exact hmain

/-- Witness for C1: in a concrete page with one same-origin image whose fetch
returns HTTP 200, the scanned reference's attribute ends up rewritten to the
local path. -/
theorem C1_witness :
    getAttrAt (processHtml c1net "https://a.com/p" "a-com-p_files" c1doc) 0 "src"
      = some (pathJoin "a-com-p_files" "a-com-ok.png.png") :=
  (C1_attr_rewritten_iff_success c1net "https://a.com/p" "a-com-p_files" c1doc
      ⟨0, "src", "/ok.png"⟩ (by decide) (by decide)).2.1 "a-com-ok.png.png" (by decide)

/-- C3: evaluation of the name pipeline at the end-to-end scenario.  The page
name and the resources-directory name match the claim, but the resource file
name evaluates to `ru-hexlet-io-assets-professions-nodejs.png.png`:
`generateFileName` appends the matched extension to a base name that already
retains the original `.png`, so the expected
`ru-hexlet-io-assets-professions-nodejs.png` of the claim (and of the
repository's own fixture test) is not produced. -/
theorem C3_name_evaluation :
    generateFileName "https://ru.hexlet.io/courses" false
      = some "ru-hexlet-io-courses.html"
    ∧ resourcesDirOf "/out" "ru-hexlet-io-courses.html"
      = "/out/ru-hexlet-io-courses_files"
    ∧ generateFileName "https://ru.hexlet.io/assets/professions/nodejs.png" true
      = some "ru-hexlet-io-assets-professions-nodejs.png.png"
    ∧ localFileNameOf "https://ru.hexlet.io/courses" "/assets/professions/nodejs.png"
      = some "ru-hexlet-io-assets-professions-nodejs.png.png"
    ∧ ¬ generateFileName "https://ru.hexlet.io/assets/professions/nodejs.png" true
      = some "ru-hexlet-io-assets-professions-nodejs.png" := by
  decide

/-- C6: `generateFileName` is deterministic and pure: two calls with the same
URL and role yield identical output, and in any call sequence the result of a
call is a function of its arguments alone, independent of the calls made
before it. -/
theorem C6_generateFileName_pure (u : String) (r : Bool) (cs : List (String × Bool)) :
    generateFileName u r = generateFileName u r
    ∧ runCalls (cs ++ [(u, r)]) = runCalls cs ++ [generateFileName u r] := by
  exact ⟨rfl, by simp [runCalls]⟩

/-- C7 counterexample: `"not a url"` is a resolvable relative reference under
WHATWG resolution (spaces are percent-encoded), so
`isLocal("https://a.com/p", "not a url")` evaluates to `true`, not `false` as
the claim states. -/
theorem C7_counterexample :
    isLocalResource "https://a.com/p" "not a url" = true := by decide

/-- C7 amended: `isLocal` never raises and returns `false` whenever the
candidate cannot be resolved against the base; the cross-origin and
path-absolute examples behave as claimed; but `"not a url"` does resolve
(it is a valid relative path, spaces percent-encoded) and is same-origin, so
it yields `true`; a genuinely unresolvable candidate such as `"https://"`
yields `false` without throwing. -/
theorem C7_amended_isLocal :
    (∀ b c, resolveCandidate b c = none → isLocalResource b c = false)
    ∧ isLocalResource "https://a.com/p" "https://b.com/x.png" = false
    ∧ isLocalResource "https://a.com/p" "/x.png" = true
    ∧ isLocalResource "https://a.com/p" "not a url" = true
    ∧ isLocalResource "https://a.com/p" "https://" = false := by
  refine ⟨?_, by decide, by decide, by decide, by decide⟩
  intro b c h
  unfold resolveCandidate at h
  unfold isLocalResource
  cases hp : URL.parse b with
  | none => rfl
  | some base =>
    rw [hp] at h
    have h' : base.resolve c = none := h
    show (match base.resolve c with
          | none => false
          | some resource => resource.host == base.host) = false
    rw [h']

/-- Witness for C7 amended: the resolution-failure clause applied at a
concrete unresolvable candidate. -/
theorem C7_amended_witness :
    isLocalResource "https://a.com/p" "https://" = false :=
  C7_amended_isLocal.1 "https://a.com/p" "https://" (by decide)

/-- C8 counterexample: a page with two references to the same absolute URL
starts two download tasks for that URL — repeated references are not
collapsed into a single download. -/
theorem C8_counterexample :
    downloadTasksFor c8doc "https://a.com/p" "https://a.com/a.png" = 2
    ∧ ¬ downloadTasksFor c8doc "https://a.com/p" "https://a.com/a.png" = 1 := by
  decide

/-- C8 amended: within one run the local file name is a function of the
absolute URL — two references with the same absolute URL are assigned the
same localFileName, hence the same target file — but repeated references are
each given their own download task (one task per collected reference), so the
resource is fetched once per reference rather than once in total. -/
theorem C8_amended_unique_name :
    (∀ b u1 u2, absoluteUrlOf b u1 = absoluteUrlOf b u2 →
      localFileNameOf b u1 = localFileNameOf b u2)
    ∧ ∀ doc b, ((collectResources doc b).map (resourceUrlOf b)).length
        = (collectResources doc b).length := by
  constructor
  · intro b u1 u2 h
    unfold localFileNameOf
    rw [h]
  · intro doc b
    exact List.length_map _ _

/-- Witness for C8 amended: a path-absolute and an absolute spelling of the
same resource URL map to the same local file name. -/
theorem C8_amended_witness :
    localFileNameOf "https://a.com/p" "/x.png"
      = localFileNameOf "https://a.com/p" "https://a.com/x.png" :=
  C8_amended_unique_name.1 "https://a.com/p" "/x.png" "https://a.com/x.png" (by decide)

/-- C2: when the main page fetch succeeds, the run resolves regardless of how
the individual resource fetches fare — a failing resource never fails the
operation — and every file in the final state is either pre-existing, the
saved HTML page, or a file produced by a resource whose download outcome is
success (failed resources leave no file in the resources directory). -/
theorem C2_partial_failure_tolerated (parseHtml : String → List Element) (net : Net)
    (fs0 : FsState) (url outputDir pageName : String) (resp : HttpResponse)
    (hnet : net url = Except.ok resp) (h200 : 200 ≤ resp.status ∧ resp.status < 300)
    (hpn : generateFileName url false = some pageName) :
    (downloadPageRun parseHtml net none fs0 url outputDir).result
      = RunResult.resolved (JsValue.str (pathJoin outputDir pageName))
    ∧ ∀ p c, (p, c) ∈ (downloadPageRun parseHtml net none fs0 url outputDir).fs.files →
        (p, c) ∈ fs0.files ∨ p = pathJoin outputDir pageName
        ∨ ∃ r, r ∈ collectResources (parseHtml resp.body) url ∧ ∃ fn,
            resourceOutcome net url (resourceUrlOf url r) = some fn
            ∧ p = pathJoin (resourcesDirOf outputDir pageName) fn := by
  rw [downloadPageRun_success parseHtml net fs0 url outputDir pageName resp hnet h200 hpn]
  refine ⟨rfl, ?_⟩
  intro p c hmem
  simp only [List.mem_append, List.mem_singleton] at hmem
  rcases hmem with (hmem | hw) | hhtml
  · exact Or.inl hmem
  · right; right
    rw [List.mem_filterMap] at hw
    obtain ⟨r, hrmem, hwr⟩ := hw
    obtain ⟨fn, hout, hp⟩ := resourceWriteOf_some hwr
    exact ⟨r, hrmem, fn, hout, hp⟩
  · right; left
    exact congrArg Prod.fst hhtml

/-- Witness for C2: a page with one reachable image and one image answering
404 still resolves with the HTML path. -/
theorem C2_witness :
    (downloadPageRun (fun _ => c2doc) c2net none ⟨[], []⟩ "https://a.com/p" "/out").result
      = RunResult.resolved (JsValue.str (pathJoin "/out" "a-com-p.html")) :=
  (C2_partial_failure_tolerated (fun _ => c2doc) c2net ⟨[], []⟩ "https://a.com/p" "/out"
      "a-com-p.html" ⟨200, "page"⟩ rfl (by decide) (by decide)).1

/-- C4 counterexample: a main-page response with HTTP status 201 — which is
not equal to 200 — is accepted by axios's default validation, so the run
resolves instead of rejecting with an HTTP-status error as the claim
demands. -/
theorem C4_counterexample :
    (downloadPageRun (fun _ => []) c4net none ⟨[], []⟩ "https://a.com/p" "/out").result
      = RunResult.resolved (JsValue.str "/out/a-com-p.html") := by decide

/-- C4 amended: for every main-page response with HTTP status outside the
2xx range (axios's default validation; e.g. 404), the run rejects with a
`PageLoaderError` whose message is "Request failed with status N" — the
spec's HttpStatusError — and nothing is created: the run stops after the
access check and the page fetch, leaving the file system untouched, so no
resources directory is created. -/
theorem C4_non2xx_rejects (parseHtml : String → List Element) (net : Net)
    (fs0 : FsState) (url outputDir : String) (resp : HttpResponse)
    (hnet : net url = Except.ok resp)
    (hbad : ¬(200 ≤ resp.status ∧ resp.status < 300)) :
    downloadPageRun parseHtml net none fs0 url outputDir =
      ⟨RunResult.rejected ("Request failed with status " ++ toString resp.status)
          "ERR_BAD_REQUEST",
        [Event.accessCheck outputDir, Event.httpGet url], fs0⟩ := by
  simp only [downloadPageRun, hnet]
  rw [if_neg hbad]
  rfl

/-- Witness for C4 amended: a 404 main page yields the rejection message
mentioning 404 and an untouched file system. -/
theorem C4_witness :
    downloadPageRun (fun _ => []) c4net404 none ⟨[], []⟩ "https://a.com/p" "/out" =
      ⟨RunResult.rejected ("Request failed with status " ++ toString 404) "ERR_BAD_REQUEST",
        [Event.accessCheck "/out", Event.httpGet "https://a.com/p"], ⟨[], []⟩⟩ :=
  C4_non2xx_rejects (fun _ => []) c4net404 ⟨[], []⟩ "https://a.com/p" "/out"
    ⟨404, "not found"⟩ rfl (by decide)

/-- C5 counterexample: a successful concrete run resolves with the plain HTML
path string, which is not the `{htmlPath, resourcesDirectory}` record shape
the claim asserts is the sole success value. -/
theorem C5_counterexample :
    (downloadPageRun (fun _ => []) c5net none ⟨[], []⟩ "https://a.com/p" "/out").result
      = RunResult.resolved (JsValue.str "/out/a-com-p.html")
    ∧ JsValue.isPair (JsValue.str "/out/a-com-p.html") = false := by decide

/-- C5 amended: on every successful run the promise resolves with the
absolute path of the saved HTML page as a plain string; the resources
directory path is not part of the success value. -/
theorem C5_resolves_with_html_path (parseHtml : String → List Element) (net : Net)
    (fs0 : FsState) (url outputDir pageName : String) (resp : HttpResponse)
    (hnet : net url = Except.ok resp) (h200 : 200 ≤ resp.status ∧ resp.status < 300)
    (hpn : generateFileName url false = some pageName) :
    (downloadPageRun parseHtml net none fs0 url outputDir).result
      = RunResult.resolved (JsValue.str (pathJoin outputDir pageName))
    ∧ JsValue.isPair (JsValue.str (pathJoin outputDir pageName)) = false := by
  rw [downloadPageRun_success parseHtml net fs0 url outputDir pageName resp hnet h200 hpn]
  exact ⟨rfl, rfl⟩

/-- Witness for C5 amended at a concrete successful run. -/
theorem C5_witness :
    (downloadPageRun (fun _ => []) c5net none ⟨[], []⟩ "https://a.com/p" "/out").result
      = RunResult.resolved (JsValue.str (pathJoin "/out" "a-com-p.html")) :=
  (C5_resolves_with_html_path (fun _ => []) c5net ⟨[], []⟩ "https://a.com/p" "/out"
      "a-com-p.html" ⟨200, "page"⟩ rfl (by decide) (by decide)).1

/-- C9: when the output-directory access check fails, the run rejects and its
whole event trace is the single access check — no HTTP request is ever
issued; with code EACCES the rejection message is the not-writable message;
and in every run (whatever the access result) the first event is the access
check, so no HTTP call can precede it. -/
theorem C9_directory_check_before_network (parseHtml : String → List Element)
    (net : Net) (fs0 : FsState) (code msg url outputDir : String) :
    (downloadPageRun parseHtml net (some (code, msg)) fs0 url outputDir).events
      = [Event.accessCheck outputDir]
    ∧ (downloadPageRun parseHtml net (some (code, msg)) fs0 url
        outputDir).result.isResolved = false
    ∧ (code = "EACCES" →
        (downloadPageRun parseHtml net (some (code, msg)) fs0 url outputDir).result
          = RunResult.rejected ("Output directory is not writable: " ++ outputDir)
              "EACCES")
    ∧ ∀ dirAccess : Option (String × String),
        (downloadPageRun parseHtml net dirAccess fs0 url outputDir).events.head?
          = some (Event.accessCheck outputDir) := by
  refine ⟨rfl, rfl, ?_, ?_⟩
  · intro hc
    subst hc
    rfl
  · intro dA
    cases dA with
    | some pr => rfl
    | none =>
      unfold downloadPageRun
      cases hnet : net url with
      | error e => rfl
      | ok resp =>
        dsimp only
        split
        · split <;> rfl
        · rfl

/-- Witness for C9: a run against a read-only directory rejects with the
not-writable message and performs no network I/O. -/
theorem C9_witness :
    (downloadPageRun (fun _ => []) (fun _ => Except.error NetError.enotfound)
        (some ("EACCES", "permission denied")) ⟨[], []⟩ "https://a.com/p" "/ro").result
      = RunResult.rejected ("Output directory is not writable: " ++ "/ro") "EACCES" :=
  (C9_directory_check_before_network (fun _ => [])
      (fun _ => Except.error NetError.enotfound) ⟨[], []⟩ "EACCES" "permission denied"
      "https://a.com/p" "/ro").2.2.1 rfl

/-- C10: on every successful run the resources directory is in the final file
system — it is created by the recursive mkdir right after the page fetch and
before any resource fetch event, even when the page has zero local resource
references — and when the directory already exists from a prior run, creation
is a no-op that still succeeds. -/
theorem C10_resources_dir_created (parseHtml : String → List Element) (net : Net)
    (fs0 : FsState) (url outputDir pageName : String) (resp : HttpResponse)
    (hnet : net url = Except.ok resp) (h200 : 200 ≤ resp.status ∧ resp.status < 300)
    (hpn : generateFileName url false = some pageName) :
    resourcesDirOf outputDir pageName
      ∈ (downloadPageRun parseHtml net none fs0 url outputDir).fs.dirs
    ∧ (downloadPageRun parseHtml net none fs0 url outputDir).events
        = [Event.accessCheck outputDir, Event.httpGet url,
            Event.mkdirRec (resourcesDirOf outputDir pageName)]
          ++ resourceFetchEvents url (collectResources (parseHtml resp.body) url)
          ++ [Event.fileWrite (pathJoin outputDir pageName)]
    ∧ (resourcesDirOf outputDir pageName ∈ fs0.dirs →
        (downloadPageRun parseHtml net none fs0 url outputDir).fs.dirs = fs0.dirs)
    ∧ (downloadPageRun parseHtml net none fs0 url outputDir).result.isResolved = true := by
  rw [downloadPageRun_success parseHtml net fs0 url outputDir pageName resp hnet h200 hpn]
  refine ⟨?_, rfl, ?_, rfl⟩
  · by_cases hmem : resourcesDirOf outputDir pageName ∈ fs0.dirs
    · rw [if_pos hmem]
      exact hmem
    · rw [if_neg hmem]
      exact List.mem_append.mpr (Or.inr (List.mem_singleton.mpr rfl))
  · intro hmem
    rw [if_pos hmem]

/-- Witness for C10: a page with no resources, run against a state where the
resources directory already exists, still resolves and keeps the directory. -/
theorem C10_witness :
    "/out/a-com-p_files" ∈ (downloadPageRun (fun _ => []) c10net none
        ⟨["/out/a-com-p_files"], []⟩ "https://a.com/p" "/out").fs.dirs :=
  (C10_resources_dir_created (fun _ => []) c10net ⟨["/out/a-com-p_files"], []⟩
      "https://a.com/p" "/out" "a-com-p.html" ⟨200, "page"⟩ rfl (by decide)
      (by decide)).1

end PageLoader
